import Mathlib

/-!
Verification of the ai-poc RAG service against its specification.

This file shallowly embeds the parts of the source relevant to the frozen
claims:

* the Context-Budget Negotiator of `src/unnamed/part_002`
  (`generateAnswerWithContextFallback`, `streamAnswerWithContextFallback`,
  `isContextLengthError`, `isStreamContextRetryError`, the `/ask` catch
  handler),
* the chunking engine `chunkText` of `src/unnamed/part_004`,
* the file-discovery walk `getEligibleFiles` of `src/unnamed/part_004`,
* the folder-ingest handler loop of `src/unnamed/part_004`,
* `trimForEmbedding`, `generateEmbeddingWithFallback` and
  `saveDocumentWithEmbedding` of `src/db/service.js`.

JavaScript strings are modelled as `List Char`; machine numbers as `Nat`
(all arithmetic in the embedded code is on small non-negative integers).
`Math.floor(x * 0.7)` and `Math.floor(x * 0.6)` are modelled as `7 * x / 10`
and `6 * x / 10` in `Nat`; this was checked (by exhaustive IEEE-754 double
computation) to agree with the JavaScript semantics on every value these
expressions are applied to in the program: the orbit of 2500 under the
negotiator shrink (2500, 1750, 1225, 857, 599, 419, 400) and every text
length up to the 12000-character ingest cap for the 0.6 factor.
-/

/-! ## Upstream errors (axios error shapes inspected by the source) -/

/-- Model of the error values inspected by `isContextLengthError`,
`getUpstreamStatus` and the route catch handlers: `error.response.data.error`
(when it is a string), `error.message`, and `error.response.status`. -/
structure UpstreamError where
  responseDataError : Option (List Char)
  message : Option (List Char)
  responseStatus : Option Nat
deriving DecidableEq

/-- Lower-casing of a JavaScript string (`String.prototype.toLowerCase`),
restricted to the character data used here. -/
def jsToLower (l : List Char) : List Char := l.map Char.toLower

/-- JavaScript `hay.includes(needle)` on strings: substring containment. -/
def containsSub (needle hay : List Char) : Bool :=
  hay.tails.any (fun t => needle.isPrefixOf t)

/-- The substring that `isContextLengthError` looks for. -/
def ctxNeedle : List Char := "exceeds the context length".toList

/-- Source: `const message = typeof responseError === "string" ? responseError
: error?.message;` in `isContextLengthError` (part_002 lines 11-15). -/
def effectiveMessage (e : UpstreamError) : Option (List Char) :=
  match e.responseDataError with
  | some s => some s
  | none => e.message

/-- Source: `isContextLengthError` (part_002 lines 11-15): the effective
message, lower-cased, contains "exceeds the context length". -/
def isContextLengthError (e : UpstreamError) : Bool :=
  match effectiveMessage e with
  | some m => containsSub ctxNeedle (jsToLower m)
  | none => false

/-- Source: `getUpstreamStatus` (part_002 lines 17-19):
`Number(error?.response?.status) || null`; a 0 status is mapped to null. -/
def getUpstreamStatus (e : UpstreamError) : Option Nat :=
  match e.responseStatus with
  | some 0 => none
  | s => s

/-- Source: `isStreamContextRetryError` (part_002 lines 21-23). -/
def isStreamContextRetryError (e : UpstreamError) : Bool :=
  isContextLengthError e || decide (getUpstreamStatus e = some 400)

/-! ## Context-Budget Negotiator state machine (part_002 lines 124-165,
252-295) -/

/-- The mutable loop state of both negotiation loops:
`contextLimit` / `maxCharsPerDoc` of the source. -/
structure NegState where
  contextLimit : Nat
  maxCharsPerDoc : Nat
deriving DecidableEq

/-- Source: `const minCharsPerDoc = 400`. -/
def minCharsPerDoc : Nat := 400

/-- Source: `const maxMatches = Math.min(6, scored.length); let contextLimit =
Math.min(3, maxMatches); let maxCharsPerDoc = 2500;` where `numScored` is the
length of the ranked document list. -/
def initialNegState (numScored : Nat) : NegState :=
  { contextLimit := min 3 (min 6 numScored), maxCharsPerDoc := 2500 }

/-- Source: `Math.max(minCharsPerDoc, Math.floor(maxCharsPerDoc * 0.7))`
(exact integer model of the float computation on the reachable orbit). -/
def shrinkChars (n : Nat) : Nat := max 400 (7 * n / 10)

/-- Source: the shrink branch of both catch blocks: first shrink
`maxCharsPerDoc`, only at its floor decrement `contextLimit`. -/
def shrinkState (s : NegState) : NegState :=
  if minCharsPerDoc < s.maxCharsPerDoc then
    { s with maxCharsPerDoc := shrinkChars s.maxCharsPerDoc }
  else if 1 < s.contextLimit then
    { s with contextLimit := s.contextLimit - 1 }
  else s

/-- Source: `const canRetry = isContextLengthError(error) && (contextLimit > 1
|| maxCharsPerDoc > minCharsPerDoc);` in `generateAnswerWithContextFallback`. -/
def canRetryBatch (s : NegState) (e : UpstreamError) : Bool :=
  isContextLengthError e &&
    (decide (1 < s.contextLimit) || decide (minCharsPerDoc < s.maxCharsPerDoc))

/-- One transition of the batch negotiator on a failed attempt: `none` means
the error is rethrown (permanent failure), `some s` is the shrunk state for
the next attempt. -/
def negStep (s : NegState) (e : UpstreamError) : Option NegState :=
  if canRetryBatch s e then some (shrinkState s) else none

/-- Source: the `canRetry` condition of `streamAnswerWithContextFallback`
(part_002 lines 277-280): additionally requires `!res.headersSent` and uses
`isStreamContextRetryError`. -/
def canRetryStream (s : NegState) (headersSent : Bool) (e : UpstreamError) : Bool :=
  !headersSent && isStreamContextRetryError e &&
    (decide (1 < s.contextLimit) || decide (minCharsPerDoc < s.maxCharsPerDoc))

/-- One transition of the streaming negotiator on a failed attempt. -/
def streamNegStep (s : NegState) (headersSent : Bool) (e : UpstreamError) :
    Option NegState :=
  if canRetryStream s headersSent e then some (shrinkState s) else none

/-- What one model call of the batch loop produces: a generated answer or a
thrown error. -/
inductive AttemptOutcome where
  | success (answer : List Char)
  | failure (e : UpstreamError)
deriving DecidableEq

/-- Source: `throw new Error("Unable to generate answer within model context
limits")` after the 7-attempt loop of `generateAnswerWithContextFallback`. -/
def exhaustedError : UpstreamError :=
  { responseDataError := none
    message := some ("Unable to generate answer within model context limits".toList)
    responseStatus := none }

/-- The `for (let attempt = 0; attempt < 7; attempt += 1)` loop of
`generateAnswerWithContextFallback`: `outcomes attempt` is what the model call
of that attempt produces. Returns the loop result together with the number of
model calls made. -/
def negLoop (outcomes : Nat → AttemptOutcome) (attempt fuel : Nat) (s : NegState) :
    Except UpstreamError (List Char) × Nat :=
  match fuel with
  | 0 => (Except.error exhaustedError, attempt)
  | fuel + 1 =>
    match outcomes attempt with
    | AttemptOutcome.success a => (Except.ok a, attempt + 1)
    | AttemptOutcome.failure e =>
      match negStep s e with
      | none => (Except.error e, attempt + 1)
      | some s' => negLoop outcomes (attempt + 1) fuel s'

/-- Source: `generateAnswerWithContextFallback` (part_002 lines 124-165),
with the model calls abstracted into the outcome sequence. -/
def generateAnswerWithContextFallback (outcomes : Nat → AttemptOutcome)
    (numScored : Nat) : Except UpstreamError (List Char) × Nat :=
  negLoop outcomes 0 7 (initialNegState numScored)

/-- Source: the `/ask` catch handler (part_002 lines 389-398): the error
message surfaced to the caller. -/
def genericFailureMessage : List Char := "Failed to answer question".toList

/-- Source: the context-length-specific `/ask` failure message. -/
def contextFailureMessage : List Char :=
  "Failed to answer question due to model context length limits".toList

/-- Source: the `/ask` catch handler (part_002 lines 389-398). -/
def askErrorMessage (e : UpstreamError) : List Char :=
  if isContextLengthError e then contextFailureMessage else genericFailureMessage

/-- States reachable by the batch negotiation loop started on `numScored`
ranked documents. -/
inductive ReachableBatch (numScored : Nat) : NegState → Prop where
  | init : ReachableBatch numScored (initialNegState numScored)
  | step {s e s'} : ReachableBatch numScored s → negStep s e = some s' →
      ReachableBatch numScored s'

/-- States reachable by the streaming negotiation loop started on `numScored`
ranked documents. -/
inductive ReachableStream (numScored : Nat) : NegState → Prop where
  | init : ReachableStream numScored (initialNegState numScored)
  | step {s hs e s'} : ReachableStream numScored s →
      streamNegStep s hs e = some s' → ReachableStream numScored s'

/-! ## Specification-side negotiator (for the refinement claim C1) -/

/-- Modelled from the spec wording of claim C1: initial state
`documentLimit = min(3, |rankedDocs|)`, `maxCharsPerDocument = 2500`. -/
def specInitialState (numRankedDocs : Nat) : NegState :=
  { contextLimit := min 3 numRankedDocs, maxCharsPerDoc := 2500 }

/-- Modelled from the spec wording of claim C1: on a context-too-large
failure shrink `maxCharsPerDocument` by 30 percent (floor 400), else
decrement `documentLimit`, else fail permanently; on any other failure fail
permanently immediately. -/
def specStep (s : NegState) (isContextTooLarge : Bool) : Option NegState :=
  if !isContextTooLarge then none
  else if 400 < s.maxCharsPerDoc then
    some { s with maxCharsPerDoc := max 400 (7 * s.maxCharsPerDoc / 10) }
  else if 1 < s.contextLimit then
    some { s with contextLimit := s.contextLimit - 1 }
  else none

/-! ## Chunking engine (`chunkText`, part_004 lines 96-119) -/

/-- JavaScript `content.slice(start, end)` for `0 <= start, end`. -/
def jsSlice (l : List Char) (s e : Nat) : List Char := (l.take e).drop s

/-- Source: `const safeOverlap = Math.min(Math.max(chunkOverlap, 0),
chunkSize - 1); const step = Math.max(1, chunkSize - safeOverlap);`. The
overlap may be any integer; the step is always at least 1. -/
def stepOf (chunkSize : Nat) (chunkOverlap : Int) : Nat :=
  (max 1 ((chunkSize : Int) - min (max chunkOverlap 0) ((chunkSize : Int) - 1))).toNat

/-- The `for (let start = 0; start < content.length; start += step)` loop of
`chunkText`. The loop always terminates because `step >= 1`; the fuel
argument (instantiated with `content.length + 1`, an upper bound on the
number of iterations) only makes that termination structural. -/
def chunkGo (content : List Char) (cs step : Nat) : Nat → Nat → List (List Char)
  | 0, _ => []
  | fuel + 1, start =>
    if start < content.length then
      let e := min content.length (start + cs)
      let c := jsSlice content start e
      if c = [] then chunkGo content cs step fuel (start + step)
      else if content.length ≤ e then [c]
      else c :: chunkGo content cs step fuel (start + step)
    else []

/-- Source: `chunkText` (part_004 lines 96-119). An empty content or a
content no longer than `chunkSize` is returned whole as a single chunk. -/
def chunkText (content : List Char) (chunkSize : Nat) (chunkOverlap : Int) :
    List (List Char) :=
  if content.length = 0 ∨ content.length ≤ chunkSize then [content]
  else chunkGo content chunkSize (stepOf chunkSize chunkOverlap)
    (content.length + 1) 0

/-- Concatenation of the non-overlapping regions of consecutive chunks: the
first chunk whole, every later chunk with its leading `ov` overlap characters
dropped (claim C7's reconstruction operation). -/
def reassemble (ov : Nat) : List (List Char) → List Char
  | [] => []
  | c :: rest => c ++ (rest.map (fun d => d.drop ov)).flatten

/-! ## File discovery (`getEligibleFiles`, part_004 lines 159-214) -/

/-- A directory tree as seen by the traversal. Whether an entry is excluded
(by the default exclusion sets or the gitignore matcher) is precomputed on
the node: the claims about the walk quantify over arbitrary exclusion
outcomes, so the string matching itself is not embedded. Files carry an
identifier standing for their path. -/
inductive FSEntry where
  | file (id : Nat) (excluded : Bool)
  | dir (excluded : Bool) (entries : List FSEntry)

mutual

/-- Size of a tree entry (bounds the number of walk iterations it causes;
a directory additionally pays for the stack slot its entries occupy). -/
def entrySize : FSEntry → Nat
  | FSEntry.file _ _ => 1
  | FSEntry.dir _ es => 2 + entriesSize es

/-- Size of an entry list. -/
def entriesSize : List FSEntry → Nat
  | [] => 0
  | e :: es => entrySize e + entriesSize es

end

/-- Size of a stack of pending entry lists: an upper bound on the number of
iterations the walk performs on it. -/
def stackSize : List (List FSEntry) → Nat
  | [] => 0
  | es :: stack => 1 + entriesSize es + stackSize stack

/-- The `outer: while (stack.length > 0)` walk of `getEligibleFiles`. The
head of `stack` is the entry list still to process of the directory popped
most recently; pushing a subdirectory puts its entries below the remaining
entries of the current directory, which is exactly the LIFO order of the
source's array stack. Returns the collected file ids and the
`maxFilesReached` flag; the fuel (instantiated with `stackSize` of the
stack) only makes the termination structural. -/
def walkGo (maxFiles : Nat) : Nat → List (List FSEntry) → List Nat →
    List Nat × Bool
  | 0, _, acc => (acc, false)
  | _ + 1, [], acc => (acc, false)
  | fuel + 1, [] :: stack, acc => walkGo maxFiles fuel stack acc
  | fuel + 1, (FSEntry.file id exc :: es) :: stack, acc =>
    if exc then walkGo maxFiles fuel (es :: stack) acc
    else if maxFiles ≤ (acc ++ [id]).length then (acc ++ [id], true)
    else walkGo maxFiles fuel (es :: stack) (acc ++ [id])
  | fuel + 1, (FSEntry.dir exc sub :: es) :: stack, acc =>
    if exc then walkGo maxFiles fuel (es :: stack) acc
    else walkGo maxFiles fuel (es :: sub :: stack) acc

/-- Source: `getEligibleFiles(rootPath, maxFiles)` (part_004 lines 159-214),
on the entry list of the root directory. First component: the collected
files; second: `discoveryStats.maxFilesReached`. -/
def getEligibleFiles (rootEntries : List FSEntry) (maxFiles : Nat) :
    List Nat × Bool :=
  walkGo maxFiles (stackSize [rootEntries]) [rootEntries] []

/-- The same walk without the cap: every eligible file of the tree, in
traversal order (used to state what "eligible files beyond the cap" means). -/
def allEligGo : Nat → List (List FSEntry) → List Nat
  | 0, _ => []
  | _ + 1, [] => []
  | fuel + 1, [] :: stack => allEligGo fuel stack
  | fuel + 1, (FSEntry.file id exc :: es) :: stack =>
    if exc then allEligGo fuel (es :: stack)
    else id :: allEligGo fuel (es :: stack)
  | fuel + 1, (FSEntry.dir exc sub :: es) :: stack =>
    if exc then allEligGo fuel (es :: stack)
    else allEligGo fuel (es :: sub :: stack)

/-- All eligible files reachable from a stack of pending entry lists. -/
def allElig (stack : List (List FSEntry)) : List Nat :=
  allEligGo (stackSize stack) stack

/-- The number of eligible files in the whole tree under the root. -/
def totalEligible (rootEntries : List FSEntry) : Nat :=
  (allElig [rootEntries]).length

/-! ## Folder-ingest handler loop (part_004 lines 220-349) -/

/-- JavaScript whitespace test for the characters relevant to `trim()`. -/
def isJsWhitespace (c : Char) : Bool :=
  c = ' ' ∨ c = '\t' ∨ c = '\n' ∨ c = '\r' ∨ c = Char.ofNat 11 ∨ c = Char.ofNat 12

/-- Truthiness of `content.trim()`: some character is not whitespace. -/
def jsTrimNonempty (content : List Char) : Bool :=
  content.any (fun c => !(isJsWhitespace c))

/-- Source: `isLikelyTextFile` (part_004 lines 63-65): no NUL byte. -/
def isLikelyTextFile (content : List Char) : Bool :=
  !(content.contains (Char.ofNat 0))

/-- The counters and effects of the `/ingest/folder` handler that the claims
inspect. `saves` records each performed `saveDocumentWithEmbedding` call as a
(file index, chunk index) pair; `persisted` records whether
`persistDatabase()` was invoked. -/
structure FolderIngestResult where
  ingestedCount : Nat
  plannedIngestCount : Nat
  skippedCount : Nat
  chunkedFileCount : Nat
  saves : List (Nat × Nat)
  persisted : Bool
deriving DecidableEq

/-- The per-file body of the `for (const filePath of files)` loop of the
`/ingest/folder` handler (part_004 lines 262-309), with the document id and
header construction abstracted into the (file index, chunk index) pair that
identifies the save. The per-chunk loop is folded into one update of the
counters, which is equivalent because the handler only ever adds 1 per
chunk. -/
def processFile (cs : Nat) (ov : Int) (dryRun : Bool) (fi : Nat)
    (content : List Char) (r : FolderIngestResult) : FolderIngestResult :=
  if !(jsTrimNonempty content) || !(isLikelyTextFile content) then
    { r with skippedCount := r.skippedCount + 1 }
  else
    let chunks := chunkText content cs ov
    let r1 := if 1 < chunks.length then
      { r with chunkedFileCount := r.chunkedFileCount + 1 } else r
    if dryRun then
      { r1 with plannedIngestCount := r1.plannedIngestCount + chunks.length }
    else
      { r1 with
        ingestedCount := r1.ingestedCount + chunks.length
        saves := r1.saves ++ (List.range chunks.length).map (fun j => (fi, j)) }

/-- Fold of the handler loop over the discovered files (given as their
contents), starting from zeroed counters. -/
def folderIngestLoop (cs : Nat) (ov : Int) (dryRun : Bool) :
    Nat → List (List Char) → FolderIngestResult → FolderIngestResult
  | _, [], r => r
  | fi, content :: rest, r =>
    folderIngestLoop cs ov dryRun (fi + 1) rest (processFile cs ov dryRun fi content r)

/-- Source: the `/ingest/folder` handler (part_004 lines 220-349): clamps the
chunk parameters (`Math.max(500, ...)`, `Math.max(0, ...)`), runs the loop
over the file contents, then persists the database only when not a dry
run. -/
def folderIngest (files : List (List Char)) (chunkSize : Nat)
    (chunkOverlap : Int) (dryRun : Bool) : FolderIngestResult :=
  let r := folderIngestLoop (max 500 chunkSize) (max 0 chunkOverlap) dryRun 0 files
    { ingestedCount := 0, plannedIngestCount := 0, skippedCount := 0
      chunkedFileCount := 0, saves := [], persisted := false }
  { r with persisted := !dryRun }

/-! ## Embedding save path (`src/db/service.js` lines 102-153) -/

/-- Source: `maxIngestChars = 12000` default of `createDbService`. -/
def maxIngestCharsDefault : Nat := 12000

/-- Source: `trimForEmbedding` (service.js lines 102-108). -/
def trimForEmbedding (maxIngestChars : Nat) (text : List Char) : List Char :=
  if text.length = 0 ∨ text.length ≤ maxIngestChars then text
  else text.take maxIngestChars

/-- Source: `candidateText.slice(0, Math.max(minLength,
Math.floor(candidateText.length * 0.6)))` with `minLength = 400`
(service.js line 133); exact integer model of the float computation on all
lengths up to the ingest cap. -/
def shrinkCandidate (t : List Char) : List Char :=
  t.take (max 400 (6 * t.length / 10))

/-- The retry loop of `generateEmbeddingWithFallback` (service.js lines
119-139): `embed attempt candidate` is the embedding service's response to
the call of that attempt (the embedding value abstracted as a `Nat`). After
five failed in-loop attempts a final call is made outside the loop whose
result is returned or rethrown unconditionally. -/
def genEmbedLoop (embed : Nat → List Char → Except UpstreamError Nat) :
    Nat → Nat → List Char → Except UpstreamError (Nat × List Char)
  | attempt, 0, candidate =>
    (embed attempt candidate).map (fun emb => (emb, candidate))
  | attempt, fuel + 1, candidate =>
    match embed attempt candidate with
    | Except.ok emb => Except.ok (emb, candidate)
    | Except.error e =>
      if isContextLengthError e && decide (400 < candidate.length) then
        genEmbedLoop embed (attempt + 1) fuel (shrinkCandidate candidate)
      else Except.error e

/-- Source: `generateEmbeddingWithFallback` (service.js lines 119-139). -/
def generateEmbeddingWithFallback (embed : Nat → List Char → Except UpstreamError Nat)
    (text : List Char) : Except UpstreamError (Nat × List Char) :=
  genEmbedLoop embed 0 5 text

/-- The row written by `saveDocumentWithEmbedding`: the stored `content`
column and the stored embedding. -/
structure SavedDoc where
  content : List Char
  embedding : Nat
deriving DecidableEq

/-- Source: `saveDocumentWithEmbedding` (service.js lines 141-153): trim the
text to the ingest cap, embed with fallback, store exactly the text that was
embedded together with its embedding. -/
def saveDocumentWithEmbedding (embed : Nat → List Char → Except UpstreamError Nat)
    (maxIngestChars : Nat) (text : List Char) : Except UpstreamError SavedDoc :=
  (generateEmbeddingWithFallback embed (trimForEmbedding maxIngestChars text)).map
    (fun p => { content := p.2, embedding := p.1 })

/-- Iterated candidate shrinking (for stating claim C10's truncation shape). -/
def shrinkIter : Nat → List Char → List Char
  | 0, t => t
  | k + 1, t => shrinkIter k (shrinkCandidate t)

/-! ## Concrete example values used by witnesses and counterexamples -/

/-- A concrete context-too-large upstream error (the error message Ollama
produces contains the detected substring). -/
def ctxErrExample : UpstreamError :=
  { responseDataError := none
    message := some ("the prompt exceeds the context length of the model".toList)
    responseStatus := some 500 }

/-- A concrete upstream HTTP 400 error without a context-length message. -/
def status400ErrExample : UpstreamError :=
  { responseDataError := none
    message := some ("Request failed with status code 400".toList)
    responseStatus := some 400 }

/-- An outcome sequence in which every model call fails with the concrete
context-too-large error. -/
def allCtxOutcomes : Nat → AttemptOutcome :=
  fun _ => AttemptOutcome.failure ctxErrExample

/-! ## Shared lemmas about the negotiator -/

/-- Shrinking a value above the floor never increases it. -/
theorem shrinkChars_le {n : Nat} (h : 400 < n) : shrinkChars n ≤ n := by
  unfold shrinkChars
  have h7 : 7 * n / 10 ≤ n := by
    calc 7 * n / 10 ≤ 10 * n / 10 :=
          Nat.div_le_div_right (by omega)
    _ = n := Nat.mul_div_cancel_left n (by omega)
  omega

/-- The shrink transition is componentwise non-increasing. -/
theorem shrinkState_le (s : NegState) :
    (shrinkState s).maxCharsPerDoc ≤ s.maxCharsPerDoc ∧
    (shrinkState s).contextLimit ≤ s.contextLimit := by
  obtain ⟨cl, mc⟩ := s
  simp only [shrinkState, minCharsPerDoc]
  split
  · exact ⟨shrinkChars_le (by assumption), Nat.le_refl _⟩
  · split
    · refine ⟨Nat.le_refl _, ?_⟩
      show cl - 1 ≤ cl
      omega
    · exact ⟨Nat.le_refl _, Nat.le_refl _⟩

/-- The shrink transition preserves the floors 400 and 1. -/
theorem shrinkState_inv (s : NegState) (h4 : 400 ≤ s.maxCharsPerDoc)
    (h1 : 1 ≤ s.contextLimit) :
    400 ≤ (shrinkState s).maxCharsPerDoc ∧ 1 ≤ (shrinkState s).contextLimit := by
  obtain ⟨cl, mc⟩ := s
  simp only [shrinkState, shrinkChars, minCharsPerDoc] at *
  split
  · exact ⟨Nat.le_max_left _ _, h1⟩
  · split
    · refine ⟨h4, ?_⟩
      show 1 ≤ cl - 1
      omega
    · exact ⟨h4, h1⟩

/-- A successful batch transition goes to the shrunk state. -/
theorem negStep_eq_some {s : NegState} {e : UpstreamError} {s' : NegState}
    (h : negStep s e = some s') : s' = shrinkState s := by
  unfold negStep at h
  split at h
  · exact (Option.some.injEq _ _ ▸ h).symm
  · simp at h

/-- A successful streaming transition goes to the shrunk state. -/
theorem streamNegStep_eq_some {s : NegState} {hs : Bool} {e : UpstreamError}
    {s' : NegState} (h : streamNegStep s hs e = some s') : s' = shrinkState s := by
  unfold streamNegStep at h
  split at h
  · exact (Option.some.injEq _ _ ▸ h).symm
  · simp at h

/-! ## Claim C1 -/

/-- Claim C1: the Context-Budget Negotiator's transition function matches the
specified state machine: for a non-empty ranked document list the initial
state is `documentLimit = min 3 numRankedDocs` and
`maxCharsPerDocument = 2500`, and every transition on a failure agrees with
the specified one: on a context-too-large failure shrink the character
budget by 30 percent (floor 400), else decrement the document limit, else
fail permanently; on any other failure fail permanently immediately. -/
theorem c1_negotiator_state_machine (numRankedDocs : Nat)
    (hne : 1 ≤ numRankedDocs) :
    initialNegState numRankedDocs = specInitialState numRankedDocs ∧
    ∀ s e, negStep s e = specStep s (isContextLengthError e) := by
  constructor
  · unfold initialNegState specInitialState
    have : min 3 (min 6 numRankedDocs) = min 3 numRankedDocs := by omega
    rw [this]
  · intro s e
    unfold negStep specStep canRetryBatch shrinkState shrinkChars minCharsPerDoc
    cases h : isContextLengthError e
    · simp
    · by_cases h1 : 400 < s.maxCharsPerDoc
      · simp [h1]
      · by_cases h2 : 1 < s.contextLimit <;> simp [h1, h2]

/-- Witness for C1 at two ranked documents. -/
theorem c1_witness : initialNegState 2 = specInitialState 2 :=
  (c1_negotiator_state_machine 2 (by decide)).1

/-! ## Claim C2 -/

/-- Claim C2: across every negotiation run (batch or streaming), on every
state reachable through context-too-large retries the character budget never
drops below 400 and the document limit never drops below 1 (given a
non-empty ranked document list), and every retry transition is componentwise
non-increasing. -/
theorem c2_negotiator_monotonicity (n : Nat) (hne : 1 ≤ n) :
    (∀ s, ReachableBatch n s → 400 ≤ s.maxCharsPerDoc ∧ 1 ≤ s.contextLimit) ∧
    (∀ s, ReachableStream n s → 400 ≤ s.maxCharsPerDoc ∧ 1 ≤ s.contextLimit) ∧
    (∀ s e s', negStep s e = some s' →
      s'.maxCharsPerDoc ≤ s.maxCharsPerDoc ∧ s'.contextLimit ≤ s.contextLimit) ∧
    (∀ s hs e s', streamNegStep s hs e = some s' →
      s'.maxCharsPerDoc ≤ s.maxCharsPerDoc ∧ s'.contextLimit ≤ s.contextLimit) := by
  have hinit : 400 ≤ (initialNegState n).maxCharsPerDoc ∧
      1 ≤ (initialNegState n).contextLimit := by
    constructor
    · show (400 : Nat) ≤ 2500
      omega
    · show 1 ≤ min 3 (min 6 n)
      omega
  refine ⟨?_, ?_, ?_, ?_⟩
  · intro s hs
    induction hs with
    | init => exact hinit
    | step _ hstep ih =>
      rw [negStep_eq_some hstep]
      exact shrinkState_inv _ ih.1 ih.2
  · intro s hs
    induction hs with
    | init => exact hinit
    | step _ hstep ih =>
      rw [streamNegStep_eq_some hstep]
      exact shrinkState_inv _ ih.1 ih.2
  · intro s e s' h
    rw [negStep_eq_some h]
    exact shrinkState_le s
  · intro s hs e s' h
    rw [streamNegStep_eq_some h]
    exact shrinkState_le s

/-- Witness for C2: the floors hold at the initial state of a run over two
ranked documents. -/
theorem c2_witness :
    400 ≤ (initialNegState 2).maxCharsPerDoc ∧ 1 ≤ (initialNegState 2).contextLimit :=
  (c2_negotiator_monotonicity 2 (by decide)).1 _ (ReachableBatch.init)

/-! ## Claim C3 -/

/-- The loop makes at most `fuel` further model calls. -/
theorem negLoop_attempts (o : Nat → AttemptOutcome) (fuel : Nat) :
    ∀ a s, (negLoop o a fuel s).2 ≤ a + fuel := by
  induction fuel with
  | zero =>
    intro a s
    show (Except.error exhaustedError, a).2 ≤ a + 0
    omega
  | succ fuel ih =>
    intro a s
    rw [negLoop]
    split
    · show a + 1 ≤ a + (fuel + 1)
      omega
    · split
      · show a + 1 ≤ a + (fuel + 1)
        omega
      · exact Nat.le_trans (ih _ _) (by omega)

/-- Claim C3: for any outcome sequence (in particular any sequence of
context-too-large failures) the negotiator makes at most 7 model calls and
terminates, either returning a generated answer or failing permanently with
a thrown error. -/
theorem c3_negotiator_termination (outcomes : Nat → AttemptOutcome) (n : Nat) :
    (generateAnswerWithContextFallback outcomes n).2 ≤ 7 ∧
    ((∃ a, (generateAnswerWithContextFallback outcomes n).1 = Except.ok a) ∨
     (∃ e, (generateAnswerWithContextFallback outcomes n).1 = Except.error e)) := by
  constructor
  · have := negLoop_attempts outcomes 7 0 (initialNegState n)
    unfold generateAnswerWithContextFallback
    omega
  · cases h : (generateAnswerWithContextFallback outcomes n).1 with
    | ok a => exact Or.inl ⟨a, rfl⟩
    | error e => exact Or.inr ⟨e, rfl⟩

/-! ## Claim C4 -/

/-- Claim C4: the streaming negotiator never retries after the response head
has been sent: every failure observed with `headersSent` true is permanent,
and a retry happens only when the failure was observed before any output and
it is a context-too-large condition (context-length error message or
upstream HTTP 400). -/
theorem c4_stream_retry_requires_no_output :
    (∀ s e, streamNegStep s true e = none) ∧
    (∀ s hs e s', streamNegStep s hs e = some s' →
      hs = false ∧
      (isContextLengthError e = true ∨ getUpstreamStatus e = some 400)) := by
  constructor
  · intro s e
    simp [streamNegStep, canRetryStream]
  · intro s hs e s' h
    unfold streamNegStep at h
    split at h
    · rename_i hc
      unfold canRetryStream at hc
      simp only [Bool.and_eq_true, Bool.not_eq_true'] at hc
      refine ⟨hc.1.1, ?_⟩
      have h2 := hc.1.2
      unfold isStreamContextRetryError at h2
      simp only [Bool.or_eq_true, decide_eq_true_eq] at h2
      exact h2
    · exact absurd h (by simp)

/-- Witness for C4: a retry on an upstream 400 observed before any output. -/
theorem c4_witness :
    false = false ∧
    (isContextLengthError status400ErrExample = true ∨
      getUpstreamStatus status400ErrExample = some 400) :=
  c4_stream_retry_requires_no_output.2 (initialNegState 3) false status400ErrExample
    { contextLimit := 3, maxCharsPerDoc := 1750 } (by decide)

/-! ## Claim C5 -/

/-- Counterexample to claim C5 as stated: with three ranked documents and
every one of the 7 attempts failing with a context-too-large error, the
negotiator's budget is exhausted by context-too-large failures, yet the
error it throws is the exhausted-cap error, whose message does not match the
context-length detector, so the `/ask` catch handler surfaces exactly the
generic failure message — not a message distinct from it. -/
theorem c5_counterexample :
    isContextLengthError ctxErrExample = true ∧
    allCtxOutcomes = (fun _ => AttemptOutcome.failure ctxErrExample) ∧
    generateAnswerWithContextFallback allCtxOutcomes 3 =
      (Except.error exhaustedError, 7) ∧
    askErrorMessage exhaustedError = genericFailureMessage := by
  refine ⟨by decide, rfl, ?_, by decide⟩
  rfl

/-- Claim C5 amended: when the negotiation ends because the shrink state is
exhausted (document limit already 1 and character budget already 400, as
happens with a single ranked document), the context-too-large error itself
is rethrown and `/ask` surfaces the context-length-specific message, which
is distinct from the generic one; but when the 7-attempt cap is exhausted
(as happens with three ranked documents), the negotiator's own exhausted
error is surfaced as the generic failure message. -/
theorem c5_amended_exhaustion_messages (e : UpstreamError)
    (hc : isContextLengthError e = true) :
    (generateAnswerWithContextFallback (fun _ => AttemptOutcome.failure e) 1).1 =
      Except.error e ∧
    askErrorMessage e = contextFailureMessage ∧
    (generateAnswerWithContextFallback (fun _ => AttemptOutcome.failure e) 3).1 =
      Except.error exhaustedError ∧
    askErrorMessage exhaustedError = genericFailureMessage ∧
    contextFailureMessage ≠ genericFailureMessage := by
  refine ⟨?_, by simp [askErrorMessage, hc], ?_, by decide, by decide⟩
  · simp [generateAnswerWithContextFallback, negLoop, negStep, canRetryBatch, hc,
      shrinkState, shrinkChars, minCharsPerDoc, initialNegState]
  · simp [generateAnswerWithContextFallback, negLoop, negStep, canRetryBatch, hc,
      shrinkState, shrinkChars, minCharsPerDoc, initialNegState]

/-- Witness for the amended C5 at the concrete context-too-large error. -/
theorem c5_witness :
    (generateAnswerWithContextFallback (fun _ => AttemptOutcome.failure ctxErrExample) 1).1 =
      Except.error ctxErrExample ∧
    askErrorMessage ctxErrExample = contextFailureMessage ∧
    (generateAnswerWithContextFallback (fun _ => AttemptOutcome.failure ctxErrExample) 3).1 =
      Except.error exhaustedError ∧
    askErrorMessage exhaustedError = genericFailureMessage ∧
    contextFailureMessage ≠ genericFailureMessage :=
  c5_amended_exhaustion_messages ctxErrExample (by decide)

/-! ## Shared lemmas about the chunking engine -/

/-- Length of a JavaScript slice. -/
theorem jsSlice_length (l : List Char) (s e : Nat) :
    (jsSlice l s e).length = min e l.length - s := by
  simp [jsSlice]

/-- A slice with room is non-empty. -/
theorem jsSlice_ne_nil {l : List Char} {s e : Nat} (h : s < min e l.length) :
    jsSlice l s e ≠ [] := by
  intro hnil
  have hlen := jsSlice_length l s e
  rw [hnil] at hlen
  simp only [List.length_nil] at hlen
  omega

/-- Dropping from a slice slides its start. -/
theorem jsSlice_drop (l : List Char) (s e d : Nat) :
    (jsSlice l s e).drop d = jsSlice l (s + d) e := by
  simp only [jsSlice, List.drop_drop]

/-- Adjacent slices concatenate. -/
theorem jsSlice_append (l : List Char) (a b c : Nat) (hab : a ≤ b) (hbc : b ≤ c) :
    jsSlice l a b ++ jsSlice l b c = jsSlice l a c := by
  unfold jsSlice
  have htt : l.take b = (l.take c).take b := by
    rw [List.take_take, min_eq_left hbc]
  rw [htt]
  have h1 : ((l.take c).take b).drop a = ((l.take c).drop a).take (b - a) :=
    List.drop_take b a (l.take c)
  have h2 : (l.take c).drop b = ((l.take c).drop a).drop (b - a) := by
    rw [List.drop_drop]
    congr 1
    omega
  rw [h1, h2, List.take_append_drop]

/-- A slice reaching the end of the list, sliced from 0. -/
theorem jsSlice_zero_length (l : List Char) : jsSlice l 0 l.length = l := by
  simp [jsSlice]

/-- The step computed by `chunkText` is positive. -/
theorem stepOf_pos (cs : Nat) (ov : Int) : 1 ≤ stepOf cs ov := by
  unfold stepOf
  omega

/-- The step computed by `chunkText` is at most the chunk size. -/
theorem stepOf_le (cs : Nat) (ov : Int) (hcs : 1 ≤ cs) : stepOf cs ov ≤ cs := by
  unfold stepOf
  omega

/-- Indexed characterization of the chunk loop: starting at `start`, the
`i`-th produced chunk is the window starting at `start + i * step`, of width
`cs` truncated at the end of the content, and it exists exactly when all
earlier windows ended strictly before the end of the content. -/
theorem chunkGo_getElem (content : List Char) (cs step : Nat) (hcs : 1 ≤ cs)
    (hstep : 1 ≤ step) (hsc : step ≤ cs) :
    ∀ fuel start i, content.length < fuel + start → start < content.length →
    (chunkGo content cs step fuel start)[i]? =
      (if ∀ j, j < i → start + j * step + cs < content.length
       then some (jsSlice content (start + i * step)
         (min content.length (start + i * step + cs)))
       else none) := by
  intro fuel
  induction fuel with
  | zero =>
    intro start i hf hs
    exact absurd hs (by omega)
  | succ fuel ih =>
    intro start i hf hs
    rw [chunkGo, if_pos hs]
    have hne : jsSlice content start (min content.length (start + cs)) ≠ [] :=
      jsSlice_ne_nil (by omega)
    rw [if_neg hne]
    by_cases hfin : content.length ≤ min content.length (start + cs)
    · rw [if_pos hfin]
      match i with
      | 0 =>
        rw [if_pos (by intro j hj; omega)]
        simp only [List.getElem?_cons_zero, Nat.zero_mul, Nat.add_zero]
      | i' + 1 =>
        rw [if_neg (by
          intro hcond
          have := hcond 0 (by omega)
          simp only [Nat.zero_mul, Nat.add_zero] at this
          omega)]
        simp
    · rw [if_neg hfin]
      have hlt : start + cs < content.length := by omega
      match i with
      | 0 =>
        rw [if_pos (by intro j hj; omega)]
        simp only [List.getElem?_cons_zero, Nat.zero_mul, Nat.add_zero]
      | i' + 1 =>
        simp only [List.getElem?_cons_succ]
        rw [ih (start + step) i' (by omega) (by omega)]
        by_cases hcond : ∀ j, j < i' + 1 → start + j * step + cs < content.length
        · have hcond' : ∀ j, j < i' → start + step + j * step + cs < content.length := by
            intro j hj
            have h := hcond (j + 1) (by omega)
            rw [Nat.succ_mul] at h
            omega
          rw [if_pos hcond', if_pos hcond]
          have harith : start + step + i' * step = start + (i' + 1) * step := by
            rw [Nat.succ_mul]
            omega
          rw [harith]
        · have hcond' : ¬ ∀ j, j < i' → start + step + j * step + cs < content.length := by
            intro hall
            apply hcond
            intro j hj
            match j with
            | 0 =>
              simp only [Nat.zero_mul, Nat.add_zero]
              omega
            | k + 1 =>
              have h := hall k (by omega)
              rw [Nat.succ_mul]
              omega
          rw [if_neg hcond', if_neg hcond]

/-- Indexed characterization of `chunkText` in the multi-chunk case. -/
theorem chunkText_getElem (content : List Char) (cs : Nat) (ov : Int)
    (hcs : 1 ≤ cs) (hlen : cs < content.length) (i : Nat) :
    (chunkText content cs ov)[i]? =
      (if ∀ j, j < i → j * stepOf cs ov + cs < content.length
       then some (jsSlice content (i * stepOf cs ov)
         (min content.length (i * stepOf cs ov + cs)))
       else none) := by
  unfold chunkText
  rw [if_neg (by omega)]
  have h := chunkGo_getElem content cs (stepOf cs ov) hcs (stepOf_pos cs ov)
    (stepOf_le cs ov hcs) (content.length + 1) 0 i (by omega) (by omega)
  simpa using h

/-! ## Claim C6 -/

/-- Claim C6: `chunkText` returns the whole content as a single chunk
whenever it fits the chunk size (even when empty); otherwise the `i`-th
chunk is the window starting at offset `i * step` with
`step = chunkSize - overlap` (overlap clamped to `[0, chunkSize - 1]`, as
computed by `stepOf`), each window of width `chunkSize` truncated at the end
of the content; in particular a content of length 10000 with chunk size 3000
and overlap 200 yields 4 chunks at offsets 0, 2800, 5600, 8400, the last
ending exactly at 10000. -/
theorem c6_chunking_contract :
    (∀ (content : List Char) (cs : Nat) (ov : Int), 1 ≤ cs →
      ((content.length ≤ cs → chunkText content cs ov = [content]) ∧
       (cs < content.length → ∀ i,
         (chunkText content cs ov)[i]? =
           (if ∀ j, j < i → j * stepOf cs ov + cs < content.length
            then some (jsSlice content (i * stepOf cs ov)
              (min content.length (i * stepOf cs ov + cs)))
            else none)))) ∧
    (∀ content : List Char, content.length = 10000 →
      chunkText content 3000 200 =
        [jsSlice content 0 3000, jsSlice content 2800 5800,
         jsSlice content 5600 8600, jsSlice content 8400 10000]) := by
  constructor
  · intro content cs ov hcs
    constructor
    · intro hle
      unfold chunkText
      rw [if_pos (Or.inr hle)]
    · intro hlt i
      exact chunkText_getElem content cs ov hcs hlt i
  · intro content hlen
    have hstep : stepOf 3000 200 = 2800 := by decide
    apply List.ext_getElem?
    intro i
    rw [chunkText_getElem content 3000 200 (by omega) (by omega) i, hstep, hlen]
    match i with
    | 0 =>
      rw [if_pos (by intro j hj; omega)]
      norm_num
    | 1 =>
      rw [if_pos (by intro j hj; omega)]
      norm_num
    | 2 =>
      rw [if_pos (by intro j hj; omega)]
      norm_num
    | 3 =>
      rw [if_pos (by intro j hj; omega)]
      norm_num
    | n + 4 =>
      rw [if_neg (by intro h; have := h 3 (by omega); omega)]
      symm
      apply List.getElem?_eq_none
      simp

/-- Witness for C6: the 10000-character scenario at a concrete content. -/
theorem c6_witness :
    chunkText (List.replicate 10000 'a') 3000 200 =
      [jsSlice (List.replicate 10000 'a') 0 3000,
       jsSlice (List.replicate 10000 'a') 2800 5800,
       jsSlice (List.replicate 10000 'a') 5600 8600,
       jsSlice (List.replicate 10000 'a') 8400 10000] :=
  c6_chunking_contract.2 (List.replicate 10000 'a') (by rw [List.length_replicate])

/-! ## Claim C7 -/

/-- An out-of-range slice is empty. -/
theorem jsSlice_eq_nil {l : List Char} {s e : Nat} (h : min e l.length ≤ s) :
    jsSlice l s e = [] := by
  apply List.eq_nil_of_length_eq_zero
  rw [jsSlice_length]
  omega

/-- Dropping the overlap from every chunk produced from `start` on and
concatenating gives the tail of the content from `start + overlap` on. -/
theorem chunkGo_drop_flatten (content : List Char) (cs step d : Nat)
    (hcs : 1 ≤ cs) (hstep : 1 ≤ step) (hd : step + d = cs) :
    ∀ fuel start, content.length < fuel + start → start < content.length →
    ((chunkGo content cs step fuel start).map (fun c => c.drop d)).flatten =
      jsSlice content (min content.length (start + d)) content.length := by
  intro fuel
  induction fuel with
  | zero =>
    intro start hf hs
    exact absurd hs (by omega)
  | succ fuel ih =>
    intro start hf hs
    rw [chunkGo, if_pos hs]
    have hne : jsSlice content start (min content.length (start + cs)) ≠ [] :=
      jsSlice_ne_nil (by omega)
    rw [if_neg hne]
    by_cases hfin : content.length ≤ min content.length (start + cs)
    · rw [if_pos hfin]
      simp only [List.map_cons, List.map_nil, List.flatten_cons,
        List.flatten_nil, List.append_nil]
      have hmin : min content.length (start + cs) = content.length := by omega
      rw [hmin, jsSlice_drop]
      by_cases hsd : start + d ≤ content.length
      · rw [min_eq_right hsd]
      · rw [jsSlice_eq_nil (by omega)]
        rw [min_eq_left (by omega)]
        rw [jsSlice_eq_nil (by omega)]
    · rw [if_neg hfin]
      have hlt : start + cs < content.length := by omega
      simp only [List.map_cons, List.flatten_cons]
      rw [ih (start + step) (by omega) (by omega)]
      have hmin : min content.length (start + cs) = start + cs := by omega
      rw [hmin, jsSlice_drop]
      have hmin2 : min content.length (start + step + d) = start + cs := by omega
      rw [hmin2]
      have hmin3 : min content.length (start + d) = start + d := by omega
      rw [hmin3]
      exact jsSlice_append content (start + d) (start + cs) content.length
        (by omega) (by omega)

/-- Reconstruction: re-joining the chunks with the overlap dropped from each
later chunk yields the original content. -/
theorem chunkText_reassemble (content : List Char) (cs : Nat) (ov : Int)
    (hcs : 1 ≤ cs) :
    reassemble (cs - stepOf cs ov) (chunkText content cs ov) = content := by
  unfold chunkText
  by_cases h0 : content.length = 0 ∨ content.length ≤ cs
  · rw [if_pos h0]
    simp [reassemble]
  · rw [if_neg h0]
    push_neg at h0
    have hlen : cs < content.length := by omega
    have hstep1 : 1 ≤ stepOf cs ov := stepOf_pos cs ov
    have hstep2 : stepOf cs ov ≤ cs := stepOf_le cs ov hcs
    rw [chunkGo, if_pos (by omega)]
    have hne : jsSlice content 0 (min content.length (0 + cs)) ≠ [] :=
      jsSlice_ne_nil (by omega)
    rw [if_neg hne, if_neg (by omega)]
    rw [reassemble]
    rw [chunkGo_drop_flatten content cs (stepOf cs ov) (cs - stepOf cs ov) hcs
      hstep1 (by omega) content.length (0 + stepOf cs ov) (by omega) (by omega)]
    have hmin : min content.length (0 + stepOf cs ov + (cs - stepOf cs ov)) = cs := by
      omega
    rw [hmin]
    have hmin2 : min content.length (0 + cs) = cs := by omega
    rw [hmin2]
    rw [show jsSlice content 0 cs ++ jsSlice content cs content.length =
      jsSlice content 0 content.length from
      jsSlice_append content 0 cs content.length (by omega) (by omega)]
    exact jsSlice_zero_length content

/-- Coverage: every position of the content lies inside the window of some
produced chunk. -/
theorem chunkText_coverage (content : List Char) (cs : Nat) (ov : Int)
    (hcs : 1 ≤ cs) (p : Nat) (hp : p < content.length) :
    ∃ (i : Nat) (s : Nat), (chunkText content cs ov)[i]? =
        some (jsSlice content s (min content.length (s + cs))) ∧
      s ≤ p ∧ p < min content.length (s + cs) := by
  by_cases hle : content.length ≤ cs
  · refine ⟨0, 0, ?_, by omega, by omega⟩
    unfold chunkText
    rw [if_pos (Or.inr hle)]
    have hmin : min content.length (0 + cs) = content.length := by omega
    rw [hmin]
    rw [jsSlice_zero_length content]
    rfl
  · push_neg at hle
    set step := stepOf cs ov with hstepdef
    have hstep1 : 1 ≤ step := stepOf_pos cs ov
    have hstep2 : step ≤ cs := stepOf_le cs ov hcs
    have hq : ∃ k, content.length ≤ k * step + cs := by
      refine ⟨content.length, ?_⟩
      have : content.length ≤ content.length * step :=
        Nat.le_mul_of_pos_right content.length hstep1
      omega
    have hfind := Nat.find_spec hq
    have hfindmin := fun m (hm : m < Nat.find hq) => Nat.find_min hq hm
    refine ⟨min (p / step) (Nat.find hq), min (p / step) (Nat.find hq) * step,
      ?_, ?_, ?_⟩
    · rw [chunkText_getElem content cs ov hcs hle]
      rw [if_pos ?_]
      intro j hj
      rw [← hstepdef]
      have hjf : j < Nat.find hq := by omega
      have := hfindmin j hjf
      omega
    · have h1 : min (p / step) (Nat.find hq) * step ≤ (p / step) * step :=
        Nat.mul_le_mul_right step (by omega)
      have h2 : (p / step) * step ≤ p := Nat.div_mul_le_self p step
      omega
    · rcases Nat.le_total (p / step) (Nat.find hq) with hcase | hcase
      · rw [min_eq_left hcase]
        have hdm : step * (p / step) + p % step = p := Nat.div_add_mod p step
        have hmod : p % step < step := Nat.mod_lt p (by omega)
        have hcomm : p / step * step = step * (p / step) := Nat.mul_comm _ _
        omega
      · rw [min_eq_right hcase]
        have := hfind
        omega

/-- Claim C7: for all content and valid parameters the chunk windows cover
the whole interval `[0, content.length)` with no gaps, and concatenating the
non-overlapping regions of consecutive chunks (the overlap dropped from each
chunk after the first) reconstructs the original content exactly. -/
theorem c7_chunk_coverage_reconstruction (content : List Char) (cs : Nat)
    (ov : Int) (hcs : 1 ≤ cs) :
    (∀ p, p < content.length → ∃ (i : Nat) (s : Nat),
      (chunkText content cs ov)[i]? =
        some (jsSlice content s (min content.length (s + cs))) ∧
      s ≤ p ∧ p < min content.length (s + cs)) ∧
    reassemble (cs - stepOf cs ov) (chunkText content cs ov) = content :=
  ⟨fun p hp => chunkText_coverage content cs ov hcs p hp,
   chunkText_reassemble content cs ov hcs⟩

/-- Witness for C7 on a concrete six-character content with chunk size 4 and
overlap 2. -/
theorem c7_witness :
    reassemble (4 - stepOf 4 2) (chunkText ("abcdef".toList) 4 2) =
      "abcdef".toList :=
  (c7_chunk_coverage_reconstruction ("abcdef".toList) 4 2 (by omega)).2

/-! ## Shared lemmas about the discovery walk -/

/-- The uncapped walk is independent of the fuel, as long as the fuel is at
least the stack size. -/
theorem allEligGo_fuel : ∀ f1 : Nat, ∀ (stack : List (List FSEntry)) (f2 : Nat),
    stackSize stack ≤ f1 → stackSize stack ≤ f2 →
    allEligGo f1 stack = allEligGo f2 stack := by
  intro f1
  induction f1 with
  | zero =>
    intro stack f2 h1 h2
    match stack with
    | [] =>
      match f2 with
      | 0 => rfl
      | f2' + 1 => rfl
    | es :: st =>
      exfalso
      simp only [stackSize] at h1
      omega
  | succ f1 ih =>
    intro stack f2 h1 h2
    match stack with
    | [] =>
      match f2 with
      | 0 => rfl
      | f2' + 1 => rfl
    | [] :: st =>
      match f2 with
      | 0 =>
        exfalso
        simp only [stackSize] at h2
        omega
      | f2' + 1 =>
        simp only [stackSize, entriesSize] at h1 h2
        have hrec : allEligGo f1 st = allEligGo f2' st := by
          apply ih
          · omega
          · omega
        simp only [allEligGo, hrec]
    | (FSEntry.file id exc :: es) :: st =>
      match f2 with
      | 0 =>
        exfalso
        simp only [stackSize] at h2
        omega
      | f2' + 1 =>
        simp only [stackSize, entriesSize, entrySize] at h1 h2
        have hrec : allEligGo f1 (es :: st) = allEligGo f2' (es :: st) := by
          apply ih
          · simp only [stackSize]
            omega
          · simp only [stackSize]
            omega
        simp only [allEligGo, hrec]
    | (FSEntry.dir exc sub :: es) :: st =>
      match f2 with
      | 0 =>
        exfalso
        simp only [stackSize] at h2
        omega
      | f2' + 1 =>
        simp only [stackSize, entriesSize, entrySize] at h1 h2
        have hrec1 : allEligGo f1 (es :: st) = allEligGo f2' (es :: st) := by
          apply ih
          · simp only [stackSize]
            omega
          · simp only [stackSize]
            omega
        have hrec2 : allEligGo f1 (es :: sub :: st) =
            allEligGo f2' (es :: sub :: st) := by
          apply ih
          · simp only [stackSize]
            omega
          · simp only [stackSize]
            omega
        simp only [allEligGo, hrec1, hrec2]

/-- Unfolding: an exhausted directory is popped. -/
theorem allElig_nil_cons (st : List (List FSEntry)) :
    allElig ([] :: st) = allElig st := by
  unfold allElig
  rw [show stackSize ([] :: st) = stackSize st + 1 from by
    simp only [stackSize, entriesSize]; omega]
  simp only [allEligGo]

/-- Unfolding: a file entry is collected unless excluded. -/
theorem allElig_file (id : Nat) (exc : Bool) (es : List FSEntry)
    (st : List (List FSEntry)) :
    allElig ((FSEntry.file id exc :: es) :: st) =
      (if exc then allElig (es :: st) else id :: allElig (es :: st)) := by
  unfold allElig
  rw [show stackSize ((FSEntry.file id exc :: es) :: st) =
      stackSize (es :: st) + 1 from by
    simp only [stackSize, entriesSize, entrySize]; omega]
  simp only [allEligGo]

/-- Unfolding: a directory entry is pushed unless excluded. -/
theorem allElig_dir (exc : Bool) (sub es : List FSEntry)
    (st : List (List FSEntry)) :
    allElig ((FSEntry.dir exc sub :: es) :: st) =
      (if exc then allElig (es :: st) else allElig (es :: sub :: st)) := by
  unfold allElig
  rw [show stackSize ((FSEntry.dir exc sub :: es) :: st) =
      stackSize (es :: sub :: st) + 1 from by
    simp only [stackSize, entriesSize, entrySize]; omega]
  simp only [allEligGo]
  by_cases h : exc = true
  · rw [if_pos h, if_pos h]
    apply allEligGo_fuel
    · simp only [stackSize, entriesSize]
      omega
    · exact Nat.le_refl _
  · rw [if_neg h, if_neg h]

/-- Characterization of the capped walk: with the accumulator still below the
cap, it returns the accumulator extended by the eligible files up to the cap,
and the flag records whether the cap is reached. -/
theorem walkGo_spec (m : Nat) :
    ∀ fuel (stack : List (List FSEntry)) (acc : List Nat),
    stackSize stack ≤ fuel → acc.length < m →
    walkGo m fuel stack acc =
      (acc ++ (allElig stack).take (m - acc.length),
       decide (m ≤ acc.length + (allElig stack).length)) := by
  intro fuel
  induction fuel with
  | zero =>
    intro stack acc h1 h2
    match stack with
    | [] =>
      simp only [walkGo]
      rw [show allElig ([] : List (List FSEntry)) = [] from rfl]
      simp only [List.take_nil, List.append_nil, List.length_nil]
      rw [decide_eq_false (by omega)]
    | es :: st =>
      exfalso
      simp only [stackSize] at h1
      omega
  | succ fuel ih =>
    intro stack acc h1 h2
    match stack with
    | [] =>
      simp only [walkGo]
      rw [show allElig ([] : List (List FSEntry)) = [] from rfl]
      simp only [List.take_nil, List.append_nil, List.length_nil]
      rw [decide_eq_false (by omega)]
    | [] :: st =>
      simp only [walkGo]
      rw [allElig_nil_cons]
      apply ih st acc ?_ h2
      simp only [stackSize, entriesSize] at h1
      omega
    | (FSEntry.file id exc :: es) :: st =>
      simp only [walkGo]
      rw [allElig_file]
      have hsz : stackSize (es :: st) ≤ fuel := by
        simp only [stackSize, entriesSize, entrySize] at h1 ⊢
        omega
      cases exc with
      | true =>
        rw [if_pos rfl, if_pos rfl]
        exact ih (es :: st) acc hsz h2
      | false =>
        rw [if_neg Bool.false_ne_true, if_neg Bool.false_ne_true]
        by_cases hfull : m ≤ (acc ++ [id]).length
        · rw [if_pos hfull]
          have hlen : (acc ++ [id]).length = acc.length + 1 := by simp
          have hone : m - acc.length = 1 := by omega
          rw [hone]
          rw [show (1 : Nat) = 0 + 1 from rfl, List.take_succ_cons, List.take_zero]
          rw [Prod.mk.injEq]
          refine ⟨rfl, ?_⟩
          symm
          rw [decide_eq_true_eq]
          simp only [List.length_cons]
          omega
        · rw [if_neg hfull]
          have hlen : (acc ++ [id]).length = acc.length + 1 := by simp
          have hlt : (acc ++ [id]).length < m := by omega
          rw [ih (es :: st) (acc ++ [id]) hsz hlt]
          have hone : m - acc.length = (m - (acc ++ [id]).length) + 1 := by omega
          rw [hone, List.take_succ_cons]
          rw [Prod.mk.injEq]
          constructor
          · simp
          · rw [decide_eq_decide]
            simp only [List.length_cons]
            omega
    | (FSEntry.dir exc sub :: es) :: st =>
      simp only [walkGo]
      rw [allElig_dir]
      have hsz1 : stackSize (es :: st) ≤ fuel := by
        simp only [stackSize, entriesSize, entrySize] at h1 ⊢
        omega
      have hsz2 : stackSize (es :: sub :: st) ≤ fuel := by
        simp only [stackSize, entriesSize, entrySize] at h1 ⊢
        omega
      cases exc with
      | true =>
        rw [if_pos rfl, if_pos rfl]
        exact ih (es :: st) acc hsz1 h2
      | false =>
        rw [if_neg Bool.false_ne_true, if_neg Bool.false_ne_true]
        exact ih (es :: sub :: st) acc hsz2 h2

/-! ## Claim C8 -/

/-- Counterexample to claim C8 as stated: a root with exactly one eligible
file walked with cap 1 sets the cap-reached flag although no eligible file
exists beyond the cap. -/
theorem c8_counterexample :
    ¬(((getEligibleFiles [FSEntry.file 0 false] 1).2 = true) ↔
      1 < totalEligible [FSEntry.file 0 false]) := by decide

/-- Claim C8 amended: discovery returns at most `N` files for every `N ≥ 1`,
and the cap-reached flag is set if and only if at least `N` eligible files
exist in the tree (so the flag may be set when exactly `N` eligible files
exist and none lie beyond the cap). -/
theorem c8_discovery_cap_amended (root : List FSEntry) (N : Nat) (hN : 1 ≤ N) :
    (getEligibleFiles root N).1.length ≤ N ∧
    ((getEligibleFiles root N).2 = true ↔ N ≤ totalEligible root) := by
  have h := walkGo_spec N (stackSize [root]) [root] [] (Nat.le_refl _)
    (by simpa using hN)
  unfold getEligibleFiles
  rw [h]
  constructor
  · simp only [List.nil_append, List.length_take]
    omega
  · simp only [List.length_nil, Nat.zero_add, decide_eq_true_eq, totalEligible]

/-- Witness for the amended C8 at a concrete two-file root with cap 1. -/
theorem c8_witness :
    (getEligibleFiles [FSEntry.file 0 false, FSEntry.file 1 false] 1).1.length ≤ 1 ∧
    ((getEligibleFiles [FSEntry.file 0 false, FSEntry.file 1 false] 1).2 = true ↔
      1 ≤ totalEligible [FSEntry.file 0 false, FSEntry.file 1 false]) :=
  c8_discovery_cap_amended [FSEntry.file 0 false, FSEntry.file 1 false] 1
    (by decide)

/-! ## Claim C9 -/

/-- The chunker always produces at least one chunk. -/
theorem chunkText_ne_nil (content : List Char) (cs : Nat) (ov : Int)
    (hcs : 1 ≤ cs) : chunkText content cs ov ≠ [] := by
  unfold chunkText
  split
  · simp
  · rename_i h
    push_neg at h
    rw [chunkGo, if_pos (by omega)]
    have hne : jsSlice content 0 (min content.length (0 + cs)) ≠ [] :=
      jsSlice_ne_nil (by omega)
    rw [if_neg hne]
    split
    · simp
    · simp

/-- In dry-run mode a file never changes the ingested count or the performed
saves and never decreases the planned count. -/
theorem processFile_dry (cs' : Nat) (ov' : Int) (fi : Nat) (content : List Char)
    (r : FolderIngestResult) :
    (processFile cs' ov' true fi content r).ingestedCount = r.ingestedCount ∧
    (processFile cs' ov' true fi content r).saves = r.saves ∧
    r.plannedIngestCount ≤ (processFile cs' ov' true fi content r).plannedIngestCount := by
  unfold processFile
  split
  · exact ⟨rfl, rfl, Nat.le_refl _⟩
  · simp only []
    split
    · split
      · exact ⟨rfl, rfl, Nat.le_add_right _ _⟩
      · exact ⟨rfl, rfl, Nat.le_add_right _ _⟩
    · rename_i h
      exact absurd trivial h

/-- In dry-run mode an eligible (non-empty, non-binary) file strictly
increases the planned count. -/
theorem processFile_dry_eligible (cs' : Nat) (ov' : Int) (hcs : 1 ≤ cs')
    (fi : Nat) (content : List Char) (r : FolderIngestResult)
    (ht : jsTrimNonempty content = true) (hb : isLikelyTextFile content = true) :
    r.plannedIngestCount + 1 ≤ (processFile cs' ov' true fi content r).plannedIngestCount := by
  unfold processFile
  rw [if_neg (by simp [ht, hb])]
  have hlen : 1 ≤ (chunkText content cs' ov').length :=
    List.length_pos.mpr (chunkText_ne_nil content cs' ov' hcs)
  simp only []
  split
  · split
    · show r.plannedIngestCount + 1 ≤
        r.plannedIngestCount + (chunkText content cs' ov').length
      omega
    · show r.plannedIngestCount + 1 ≤
        r.plannedIngestCount + (chunkText content cs' ov').length
      omega
  · rename_i h
    exact absurd trivial h

/-- The dry-run loop never ingests, never saves, and never decreases the
planned count. -/
theorem folderIngestLoop_dry (cs' : Nat) (ov' : Int) :
    ∀ (files : List (List Char)) (fi : Nat) (r : FolderIngestResult),
    (folderIngestLoop cs' ov' true fi files r).ingestedCount = r.ingestedCount ∧
    (folderIngestLoop cs' ov' true fi files r).saves = r.saves ∧
    r.plannedIngestCount ≤ (folderIngestLoop cs' ov' true fi files r).plannedIngestCount := by
  intro files
  induction files with
  | nil => intro fi r; exact ⟨rfl, rfl, Nat.le_refl _⟩
  | cons content rest ih =>
    intro fi r
    rw [folderIngestLoop]
    have hp := processFile_dry cs' ov' fi content r
    have hr := ih (fi + 1) (processFile cs' ov' true fi content r)
    refine ⟨hr.1.trans hp.1, hr.2.1.trans hp.2.1, hp.2.2.trans hr.2.2⟩

/-- With at least one eligible file the dry-run loop plans at least one
document. -/
theorem folderIngestLoop_dry_eligible (cs' : Nat) (ov' : Int) (hcs : 1 ≤ cs') :
    ∀ (files : List (List Char)) (fi : Nat) (r : FolderIngestResult),
    (∃ f ∈ files, jsTrimNonempty f = true ∧ isLikelyTextFile f = true) →
    1 ≤ (folderIngestLoop cs' ov' true fi files r).plannedIngestCount := by
  intro files
  induction files with
  | nil =>
    intro fi r hex
    obtain ⟨f, hf, _⟩ := hex
    exact absurd hf (List.not_mem_nil f)
  | cons content rest ih =>
    intro fi r hex
    rw [folderIngestLoop]
    obtain ⟨f, hf, ht, hb⟩ := hex
    rcases List.mem_cons.mp hf with rfl | htail
    · have h1 := processFile_dry_eligible cs' ov' hcs fi f r ht hb
      have h2 := (folderIngestLoop_dry cs' ov' rest (fi + 1)
        (processFile cs' ov' true fi f r)).2.2
      omega
    · exact ih (fi + 1) (processFile cs' ov' true fi content r) ⟨f, htail, ht, hb⟩

/-- Claim C9: a dry-run folder ingest over files containing at least one
eligible, non-binary, non-empty file reports `ingestedCount = 0` and a
strictly positive `plannedIngestCount`, performs no document save and does
not persist the database. -/
theorem c9_dry_run_frame (files : List (List Char)) (cs : Nat) (ov : Int)
    (hex : ∃ f ∈ files, jsTrimNonempty f = true ∧ isLikelyTextFile f = true) :
    (folderIngest files cs ov true).ingestedCount = 0 ∧
    0 < (folderIngest files cs ov true).plannedIngestCount ∧
    (folderIngest files cs ov true).saves = [] ∧
    (folderIngest files cs ov true).persisted = false := by
  unfold folderIngest
  have hd := folderIngestLoop_dry (max 500 cs) (max 0 ov) files 0
    { ingestedCount := 0, plannedIngestCount := 0, skippedCount := 0
      chunkedFileCount := 0, saves := [], persisted := false }
  have he := folderIngestLoop_dry_eligible (max 500 cs) (max 0 ov) (by omega)
    files 0
    { ingestedCount := 0, plannedIngestCount := 0, skippedCount := 0
      chunkedFileCount := 0, saves := [], persisted := false } hex
  refine ⟨hd.1, ?_, hd.2.1, rfl⟩
  show 0 < (folderIngestLoop (max 500 cs) (max 0 ov) true 0 files
    { ingestedCount := 0, plannedIngestCount := 0, skippedCount := 0
      chunkedFileCount := 0, saves := [], persisted := false }).plannedIngestCount
  omega

/-- Witness for C9: a single one-character file, dry run. -/
theorem c9_witness :
    (folderIngest [['a']] 3000 200 true).ingestedCount = 0 ∧
    0 < (folderIngest [['a']] 3000 200 true).plannedIngestCount ∧
    (folderIngest [['a']] 3000 200 true).saves = [] ∧
    (folderIngest [['a']] 3000 200 true).persisted = false :=
  c9_dry_run_frame [['a']] 3000 200
    ⟨['a'], by simp, by decide, by decide⟩

/-! ## Claim C10 -/

/-- A successful embedding-fallback run used a candidate obtained by some
number of shrinks within the fuel bound plus the final out-of-loop call, and
the embedding returned came from calling the service on exactly that
candidate. -/
theorem genEmbedLoop_ok (embed : Nat → List Char → Except UpstreamError Nat) :
    ∀ (fuel a : Nat) (cand used : List Char) (emb : Nat),
    genEmbedLoop embed a fuel cand = Except.ok (emb, used) →
    ∃ k, k ≤ fuel ∧ used = shrinkIter k cand ∧
      embed (a + k) used = Except.ok emb := by
  intro fuel
  induction fuel with
  | zero =>
    intro a cand used emb h
    rw [genEmbedLoop] at h
    cases he : embed a cand with
    | ok v =>
      rw [he] at h
      simp only [Except.map] at h
      injection h with h'
      injection h' with h1 h2
      refine ⟨0, Nat.le_refl 0, by rw [← h2]; rfl, ?_⟩
      rw [Nat.add_zero, ← h2, he, h1]
    | error e =>
      rw [he] at h
      simp only [Except.map] at h
      exact absurd h (by simp)
  | succ fuel ih =>
    intro a cand used emb h
    rw [genEmbedLoop] at h
    cases he : embed a cand with
    | ok v =>
      rw [he] at h
      simp only [] at h
      injection h with h'
      injection h' with h1 h2
      refine ⟨0, by omega, by rw [← h2]; rfl, ?_⟩
      rw [Nat.add_zero, ← h2, he, h1]
    | error e =>
      rw [he] at h
      simp only [] at h
      by_cases hc : (isContextLengthError e && decide (400 < cand.length)) = true
      · rw [if_pos hc] at h
        obtain ⟨k, hk, hused, hemb⟩ := ih (a + 1) (shrinkCandidate cand) used emb h
        refine ⟨k + 1, by omega, ?_, ?_⟩
        · rw [hused]
          rfl
        · rw [show a + (k + 1) = a + 1 + k from by omega]
          exact hemb
      · rw [if_neg hc] at h
        exact absurd h (by simp)

/-- Iterated shrinking of a prefix is again a prefix. -/
theorem shrinkIter_take : ∀ (k : Nat) (t : List Char),
    ∃ n, shrinkIter k t = t.take n := by
  intro k
  induction k with
  | zero =>
    intro t
    exact ⟨t.length, by rw [shrinkIter, List.take_length]⟩
  | succ k ih =>
    intro t
    obtain ⟨n, hn⟩ := ih (shrinkCandidate t)
    refine ⟨min n (max 400 (6 * t.length / 10)), ?_⟩
    rw [shrinkIter, hn]
    unfold shrinkCandidate
    rw [List.take_take]

/-- Claim C10: every document row written by `saveDocumentWithEmbedding`
stores a prefix of the given text of length at most the 12000-character
ingest cap; the stored text is the trimmed text further shrunk (to 60
percent, floored at 400 characters) at most 5 times; and the stored
embedding was produced by the embedding service on exactly the stored
content — content and embedding are never out of sync. -/
theorem c10_saved_content_in_sync (embed : Nat → List Char → Except UpstreamError Nat)
    (text : List Char) (d : SavedDoc)
    (h : saveDocumentWithEmbedding embed maxIngestCharsDefault text = Except.ok d) :
    (∃ n, n ≤ maxIngestCharsDefault ∧ d.content = text.take n) ∧
    (∃ k, k ≤ 5 ∧ d.content = shrinkIter k (trimForEmbedding maxIngestCharsDefault text)) ∧
    (∃ attempt, attempt ≤ 5 ∧ embed attempt d.content = Except.ok d.embedding) := by
  unfold saveDocumentWithEmbedding generateEmbeddingWithFallback at h
  cases hg : genEmbedLoop embed 0 5 (trimForEmbedding maxIngestCharsDefault text) with
  | error e =>
    rw [hg] at h
    simp only [Except.map] at h
    exact absurd h (by simp)
  | ok p =>
    rw [hg] at h
    simp only [Except.map] at h
    injection h with h'
    obtain ⟨emb, used⟩ := p
    obtain ⟨k, hk, hused, hemb⟩ := genEmbedLoop_ok embed 5 0 _ used emb hg
    have hdc : d.content = used := by rw [← h']
    have hde : d.embedding = emb := by rw [← h']
    have htrim : ∃ m, m ≤ maxIngestCharsDefault ∧
        trimForEmbedding maxIngestCharsDefault text = text.take m := by
      unfold trimForEmbedding
      split
      · rename_i hcase
        refine ⟨text.length, by unfold maxIngestCharsDefault at *; omega, ?_⟩
        rw [List.take_length]
      · exact ⟨maxIngestCharsDefault, Nat.le_refl _, rfl⟩
    refine ⟨?_, ⟨k, hk, by rw [hdc, hused]⟩, ⟨0 + k, by omega, ?_⟩⟩
    · obtain ⟨m, hm, hmeq⟩ := htrim
      obtain ⟨n, hn⟩ := shrinkIter_take k (trimForEmbedding maxIngestCharsDefault text)
      refine ⟨min n m, by omega, ?_⟩
      rw [hdc, hused, hn, hmeq, List.take_take]
    · rw [hdc, hde]
      exact hemb

/-- Witness for C10: an always-successful embedding service on a short
text. -/
theorem c10_witness :
    (∃ n, n ≤ maxIngestCharsDefault ∧
      ({ content := "hello".toList, embedding := 5 } : SavedDoc).content =
        ("hello".toList).take n) ∧
    (∃ k, k ≤ 5 ∧ ({ content := "hello".toList, embedding := 5 } : SavedDoc).content =
      shrinkIter k (trimForEmbedding maxIngestCharsDefault ("hello".toList))) ∧
    (∃ attempt, attempt ≤ 5 ∧
      (fun (_ : Nat) (t : List Char) => (Except.ok t.length : Except UpstreamError Nat))
        attempt ({ content := "hello".toList, embedding := 5 } : SavedDoc).content =
      Except.ok ({ content := "hello".toList, embedding := 5 } : SavedDoc).embedding) :=
  c10_saved_content_in_sync
    (fun (_ : Nat) (t : List Char) => (Except.ok t.length : Except UpstreamError Nat))
    ("hello".toList) { content := "hello".toList, embedding := 5 } (by rfl)
